import Mathlib

/-!
Verification of the transcript-conversion core of `export.py`
(podcasts_export_app).  The embedding works over `List Char`; each Python
regular-expression substitution from the source is modelled by a bespoke
backtracking matcher (greedy repetition with backtracking, leftmost
non-overlapping substitution), faithful to CPython `re` semantics for the
concrete pattern it embeds.
-/

set_option maxHeartbeats 1000000

/-- Character list of a string literal, used to write inputs readably. -/
def cs (s : String) : List Char := s.data

/-- Match a literal: if `p` is a prefix of `l`, return the remainder. -/
def dropLit : List Char → List Char → Option (List Char)
  | [], l => some l
  | _ :: _, [] => none
  | p :: ps, c :: l => if p = c then dropLit ps l else none

/-- Python `\d` (ASCII): digit characters. -/
def pyDigit (c : Char) : Bool := c.isDigit

/-- Character class `[\d:]` used in the time captures of the sentence regex. -/
def isDigitColon (c : Char) : Bool := c.isDigit || c = ':'

/-- Python `\s` (ASCII): whitespace characters. -/
def pyIsSpace (c : Char) : Bool :=
  c = ' ' || c = '\t' || c = '\n' || c = '\r' || c = '\x0b' || c = '\x0c'

/-- Match `\d{3}`: exactly three digits, captured. -/
def take3Digits : List Char → Option (List Char × List Char)
  | a :: b :: c :: r =>
    if a.isDigit && b.isDigit && c.isDigit then some ([a, b, c], r) else none
  | _ => none

/-- Greedy backtracking for a capturing `+`-repetition: try the run length
`k` first, then shorter, never empty.  `next` is the matcher for the rest of
the pattern; the taken run is prepended to its captures. -/
def tryRepFrom (next : List Char → Option (List (List Char) × List Char))
    (l : List Char) : Nat → Option (List (List Char) × List Char)
  | 0 => none
  | k + 1 =>
    match next (l.drop (k + 1)) with
    | some (caps, rest) => some (l.take (k + 1) :: caps, rest)
    | none => tryRepFrom next l k

/-- Greedy backtracking for a non-capturing `+`-repetition. -/
def tryRepPos (next : List Char → Option (List (List Char) × List Char))
    (l : List Char) : Nat → Option (List (List Char) × List Char)
  | 0 => none
  | k + 1 =>
    match next (l.drop (k + 1)) with
    | some r => some r
    | none => tryRepPos next l k

/-- Greedy backtracking for a non-capturing `*`-repetition (may take zero). -/
def tryRepStar (next : List Char → Option (List (List Char) × List Char))
    (l : List Char) : Nat → Option (List (List Char) × List Char)
  | 0 => next l
  | k + 1 =>
    match next (l.drop (k + 1)) with
    | some r => some r
    | none => tryRepStar next l k

/-! ### The sentence-cue regex (export.py line 166)

`<span begin="([\d:]+).(\d{3})" end="([\d:]+).(\d{3})" podcasts:unit="sentence">([^<]+)</span>`

The matcher is written back to front: `sentA` is the tail of the pattern,
`matchSentence` the whole pattern.  Captures accumulate front to back. -/

def sentA (l : List Char) : Option (List (List Char) × List Char) :=
  (dropLit (cs "</span>") l).map (fun r => (([] : List (List Char)), r))

def sentB (l : List Char) : Option (List (List Char) × List Char) :=
  tryRepFrom sentA l (l.takeWhile (· ≠ '<')).length

def sentC (l : List Char) : Option (List (List Char) × List Char) :=
  (dropLit (cs "\" podcasts:unit=\"sentence\">") l).bind sentB

def sentD (l : List Char) : Option (List (List Char) × List Char) :=
  (take3Digits l).bind fun (d, r) =>
    (sentC r).map (fun (caps, rest) => (d :: caps, rest))

/-- The unescaped `.` between seconds and milliseconds: any char but `\n`. -/
def sentE (l : List Char) : Option (List (List Char) × List Char) :=
  match l with
  | [] => none
  | c :: r => if c = '\n' then none else sentD r

def sentF (l : List Char) : Option (List (List Char) × List Char) :=
  tryRepFrom sentE l (l.takeWhile isDigitColon).length

def sentG (l : List Char) : Option (List (List Char) × List Char) :=
  (dropLit (cs "\" end=\"") l).bind sentF

def sentH (l : List Char) : Option (List (List Char) × List Char) :=
  (take3Digits l).bind fun (d, r) =>
    (sentG r).map (fun (caps, rest) => (d :: caps, rest))

def sentI (l : List Char) : Option (List (List Char) × List Char) :=
  match l with
  | [] => none
  | c :: r => if c = '\n' then none else sentH r

def sentJ (l : List Char) : Option (List (List Char) × List Char) :=
  tryRepFrom sentI l (l.takeWhile isDigitColon).length

/-- Full sentence-cue pattern at the current position. -/
def matchSentence (l : List Char) : Option (List (List Char) × List Char) :=
  (dropLit (cs "<span begin=\"") l).bind sentJ

/-! ### The word-span regex (export.py line 151)

`<span[^>]+word">([^<]+)</span>` with replacement `\1 `. -/

def wordA (l : List Char) : Option (List (List Char) × List Char) :=
  (dropLit (cs "</span>") l).map (fun r => (([] : List (List Char)), r))

def wordB (l : List Char) : Option (List (List Char) × List Char) :=
  tryRepFrom wordA l (l.takeWhile (· ≠ '<')).length

def wordC (l : List Char) : Option (List (List Char) × List Char) :=
  (dropLit (cs "word\">") l).bind wordB

def wordD (l : List Char) : Option (List (List Char) × List Char) :=
  tryRepPos wordC l (l.takeWhile (· ≠ '>')).length

def matchWord (l : List Char) : Option (List (List Char) × List Char) :=
  (dropLit (cs "<span") l).bind wordD

/-! ### The generic span-opening regex (export.py line 133)

`<span[^>]*>` with empty replacement. -/

def spanOpenA (l : List Char) : Option (List (List Char) × List Char) :=
  (dropLit (cs ">") l).map (fun r => (([] : List (List Char)), r))

def spanOpenB (l : List Char) : Option (List (List Char) × List Char) :=
  tryRepStar spanOpenA l (l.takeWhile (· ≠ '>')).length

def matchSpanOpen (l : List Char) : Option (List (List Char) × List Char) :=
  (dropLit (cs "<span") l).bind spanOpenB

/-! ### The speaker-paragraph regex (export.py line 135)

`<p .*(SPEAK[^"]+)">` with replacement `\n\1\n`.  The capture group is
`SPEAK` followed by the `[^"]+` run; only the run is stored, the repl
function re-attaches the literal `SPEAK`. -/

def speakA (l : List Char) : Option (List (List Char) × List Char) :=
  (dropLit (cs "\">") l).map (fun r => (([] : List (List Char)), r))

def speakB (l : List Char) : Option (List (List Char) × List Char) :=
  tryRepFrom speakA l (l.takeWhile (· ≠ '"')).length

def speakC (l : List Char) : Option (List (List Char) × List Char) :=
  (dropLit (cs "SPEAK") l).bind speakB

def speakD (l : List Char) : Option (List (List Char) × List Char) :=
  tryRepStar speakC l (l.takeWhile (· ≠ '\n')).length

def matchSpeaker (l : List Char) : Option (List (List Char) × List Char) :=
  (dropLit (cs "<p ") l).bind speakD

/-! ### The structural-tag regex (export.py line 155)

`<(head|/head|metadata|p|/p|tt|/tt|body|/body|div|/div)[^>]*>`, removed. -/

def structB (l : List Char) : Option (List (List Char) × List Char) :=
  (dropLit (cs ">") l).map (fun r => (([] : List (List Char)), r))

def structC (l : List Char) : Option (List (List Char) × List Char) :=
  tryRepStar structB l (l.takeWhile (· ≠ '>')).length

/-- Alternation over the structural tag names, tried left to right with
backtracking into the rest of the pattern. -/
def structAlt : List (List Char) → List Char → Option (List (List Char) × List Char)
  | [], _ => none
  | a :: as, l =>
    match (dropLit a l).bind structC with
    | some r => some r
    | none => structAlt as l

def structAlts : List (List Char) :=
  [cs "head", cs "/head", cs "metadata", cs "p", cs "/p", cs "tt", cs "/tt",
   cs "body", cs "/body", cs "div", cs "/div"]

def matchStruct (l : List Char) : Option (List (List Char) × List Char) :=
  (dropLit (cs "<") l).bind (structAlt structAlts)

/-! ### The catch-all tag regex (export.py line 136)

`<[^>]+>`, removed. -/

def tagB (l : List Char) : Option (List (List Char) × List Char) :=
  (dropLit (cs ">") l).map (fun r => (([] : List (List Char)), r))

def tagC (l : List Char) : Option (List (List Char) × List Char) :=
  tryRepPos tagB l (l.takeWhile (· ≠ '>')).length

def matchTag (l : List Char) : Option (List (List Char) × List Char) :=
  (dropLit (cs "<") l).bind tagC

/-- Matcher for a plain literal pattern (a regex with no metacharacters). -/
def matchLit (p : List Char) (l : List Char) : Option (List (List Char) × List Char) :=
  (dropLit p l).map (fun r => (([] : List (List Char)), r))

/-! ### re.sub: leftmost non-overlapping substitution -/

/-- One left-to-right pass of `re.sub`: at each position try matcher `m`;
on a match emit `repl` of the captures and continue after the match,
otherwise keep the character and advance one position.  The fuel argument
(initialised to the length of the input) only serves termination: every
pattern in this file consumes at least one character per match. -/
def substM (m : List Char → Option (List (List Char) × List Char))
    (repl : List (List Char) → List Char) : Nat → List Char → List Char
  | _, [] => []
  | 0, l => l
  | fuel + 1, c :: l =>
    match m (c :: l) with
    | some (caps, rest) => repl caps ++ substM m repl fuel rest
    | none => c :: substM m repl fuel l

def subst (m : List Char → Option (List (List Char) × List Char))
    (repl : List (List Char) → List Char) (l : List Char) : List Char :=
  substM m repl l.length l

/-- Replacement template `\1||\2||\3||\4||\5` (line 166): captures joined
by the synthetic `||` separator. -/
def barsRepl : List (List Char) → List Char
  | [] => []
  | [x] => x
  | x :: xs => x ++ '|' :: '|' :: barsRepl xs

/-- Python `str.split('||')` (line 167). -/
def splitBars : List Char → List (List Char)
  | [] => [[]]
  | '|' :: '|' :: rest => [] :: splitBars rest
  | c :: rest =>
    match splitBars rest with
    | [] => [[c]]
    | p :: ps => (c :: p) :: ps

/-- Python `str.split(sep)` for a single-character separator. -/
def splitChar (sep : Char) : List Char → List (List Char)
  | [] => [[]]
  | c :: rest =>
    if c = sep then [] :: splitChar sep rest
    else
      match splitChar sep rest with
      | [] => [[c]]
      | p :: ps => (c :: p) :: ps

/-! ### format_time (export.py lines 49-54) -/

/-- `format_time` from export.py: split on `:`, take the last up to three
groups verbatim, default missing higher groups to `"00"`. -/
def format_time (time_str : List Char) : List Char :=
  let parts := splitChar ':' time_str
  let ss := parts.getLastD []
  let mm := if 1 < parts.length then parts.getD (parts.length - 2) [] else cs "00"
  let hh := if 2 < parts.length then parts.getD (parts.length - 3) [] else cs "00"
  hh ++ ':' :: mm ++ ':' :: ss

/-! ### Text pass (export.py lines 132-136) -/

def sub_pclose (l : List Char) : List Char :=
  subst (matchLit (cs "</p>")) (fun _ => cs "\n") l

def sub_spanopen (l : List Char) : List Char :=
  subst matchSpanOpen (fun _ => []) l

def sub_spanclose (l : List Char) : List Char :=
  subst (matchLit (cs "</span>")) (fun _ => cs " ") l

def sub_speaker (l : List Char) : List Char :=
  subst matchSpeaker (fun caps => '\n' :: (cs "SPEAK" ++ caps.headD []) ++ cs "\n") l

def sub_tags (l : List Char) : List Char :=
  subst matchTag (fun _ => []) l

/-- The plain-text conversion (spec name `render_plain_text`): the five
chained substitutions of lines 132-136 applied to the raw document. -/
def render_plain_text (doc : List Char) : List Char :=
  sub_tags (sub_speaker (sub_spanclose (sub_spanopen (sub_pclose doc))))

/-! ### Caption normalization pass (export.py lines 149-160) -/

/-- Line 149, `re.sub(r'^$', '', s)`: without `re.MULTILINE` the anchor `^`
only matches at position 0 and the matched text is empty, so the
substitution never changes the string.  The identity is the exact
behaviour of the source expression. -/
def del_empty (l : List Char) : List Char := l

def sub_word (l : List Char) : List Char :=
  subst matchWord (fun caps => caps.headD [] ++ cs " ") l

def sub_break (l : List Char) : List Char :=
  subst (matchLit (cs "</span>")) (fun _ => cs "</span>\n") l

def sub_struct (l : List Char) : List Char :=
  subst matchStruct (fun _ => []) l

/-- Line 158, `re.sub(r'^\s*$', '', s)`: without `re.MULTILINE` both
anchors only hold at the string boundaries, so the pattern matches exactly
when the whole string is whitespace (greedy `\s*` consumes everything and
`$` holds at the end); otherwise nothing matches.  Hence: blank out an
all-whitespace string, leave every other string unchanged. -/
def del_ws (l : List Char) : List Char := if l.all pyIsSpace then [] else l

/-- The caption normalization pass: lines 149-158 applied to the raw
document, then `split('\n')` (line 160). -/
def caption_lines (doc : List Char) : List (List Char) :=
  splitChar '\n' (del_ws (sub_struct (sub_break (sub_word (del_empty doc)))))

/-! ### Subtitle loop (export.py lines 163-172) -/

def sub_sentence (l : List Char) : List Char := subst matchSentence barsRepl l

/-- Result of processing one caption-pass line in the loop body. -/
inductive LineStep where
  | skip : LineStep
  | cap : List Char → List Char → List Char → List Char → List Char → LineStep
  | err : LineStep
  deriving DecidableEq

/-- The tuple unpacking `(begin, begin_ms, end, end_ms, sentense) =
tmp_str.split('||')` (line 167): a ValueError — modelled as `.err` —
unless the split yields exactly five fields. -/
def unpack5 : List (List Char) → LineStep
  | [b, bms, e, ems, s] => .cap b bms e ems s
  | _ => .err

/-- Loop body for one line (lines 165-167): lines of length at most 3 are
skipped; otherwise substitute the sentence regex and unpack five fields. -/
def lineStep (line : List Char) : LineStep :=
  if 3 < line.length then unpack5 (splitBars (sub_sentence line)) else .skip

/-- One rendered subtitle block (line 170):
`f"{i}\n{begin},{begin_ms} --> {end},{end_ms}\n{sentense}\n\n"`. -/
def srtBlock (i : Nat) (b bms e ems s : List Char) : List Char :=
  (Nat.repr i).data ++ cs "\n" ++ format_time b ++ cs "," ++ bms ++
    cs " --> " ++ format_time e ++ cs "," ++ ems ++ cs "\n" ++ s ++ cs "\n\n"

/-- The loop of lines 163-172: `i` is the 1-based block counter, `out` the
accumulated output string; an unpacking failure aborts the whole loop. -/
def srtLoopAux : List (List Char) → Nat → List Char → Except Unit (List Char)
  | [], _, out => .ok out
  | line :: rest, i, out =>
    match lineStep line with
    | .skip => srtLoopAux rest i out
    | .cap b bms e ems s => srtLoopAux rest (i + 1) (out ++ srtBlock i b bms e ems s)
    | .err => .error ()

/-- Subtitle rendering over the caption-pass lines (spec name
`render_subtitles`): the loop started with `i = 1` and empty output. -/
def render_subtitles (lines : List (List Char)) : Except Unit (List Char) :=
  srtLoopAux lines 1 []

/-! ### Spec-side TimeCode.parse (refinement target for claim C3) -/

inductive TimeError where
  | MalformedTimecode : TimeError
  deriving DecidableEq

structure TimeCode where
  hours : Nat
  minutes : Nat
  seconds : Nat
  deriving DecidableEq

/-- Numeric value of a digit group. -/
def digitsVal (g : List Char) : Nat := g.foldl (fun n c => n * 10 + (c.toNat - 48)) 0

/-- Spec-side definition, for comparison with `format_time` only.  It
follows the spec's words (§4.1): accept 1-3 colon-separated numeric groups,
fail with `MalformedTimecode` if any group is non-numeric or more than 3
groups are present; missing higher-order fields default by position from
the right. -/
def TimeCode.parse (s : List Char) : Except TimeError TimeCode :=
  let groups := splitChar ':' s
  if 3 < groups.length then .error .MalformedTimecode
  else if groups.any (fun g => g.isEmpty || !g.all pyDigit) then .error .MalformedTimecode
  else
    match groups with
    | [x] => .ok ⟨0, 0, digitsVal x⟩
    | [x, y] => .ok ⟨0, digitsVal x, digitsVal y⟩
    | [x, y, z] => .ok ⟨digitsVal x, digitsVal y, digitsVal z⟩
    | _ => .error .MalformedTimecode

/-! ### Derived helpers used only in statements -/

/-- Whether matcher `m` matches at some position of `l` (Python
`re.search`): `substM` tries exactly these positions. -/
def hasM (m : List Char → Option (List (List Char) × List Char)) : List Char → Bool
  | [] => (m []).isSome
  | c :: l => (m (c :: l)).isSome || hasM m l

/-- The caption tuples a line list yields, in order, `none` on the line
that would raise; mirrors the successful path of the loop. -/
def extractCaps : List (List Char) →
    Option (List (List Char × List Char × List Char × List Char × List Char))
  | [] => some []
  | line :: rest =>
    match lineStep line with
    | .skip => extractCaps rest
    | .cap b bms e ems s => (extractCaps rest).map (((b, bms, e, ems, s)) :: ·)
    | .err => none

/-- Render caption tuples as subtitle blocks numbered consecutively from
`i`. -/
def renderFrom : Nat → List (List Char × List Char × List Char × List Char × List Char) → List Char
  | _, [] => []
  | i, (b, bms, e, ems, s) :: rest => srtBlock i b bms e ems s ++ renderFrom (i + 1) rest

/-! ### Lemmas about splitChar and format_time -/

theorem splitChar_ne_nil (sep : Char) (l : List Char) : splitChar sep l ≠ [] := by
  cases l with
  | nil => simp [splitChar]
  | cons c rest =>
    simp only [splitChar]
    split
    · simp
    · split <;> simp

theorem splitChar_no_sep {sep : Char} {l : List Char} (h : sep ∉ l) :
    splitChar sep l = [l] := by
  induction l with
  | nil => rfl
  | cons c rest ih =>
    have hc : c ≠ sep := by rintro rfl; exact h (List.mem_cons_self _ _)
    have hr : sep ∉ rest := fun hm => h (List.mem_cons_of_mem c hm)
    simp only [splitChar, if_neg hc, ih hr]

theorem splitChar_append (sep : Char) (x y : List Char) :
    splitChar sep (x ++ sep :: y) = splitChar sep x ++ splitChar sep y := by
  induction x with
  | nil => simp [splitChar]
  | cons a x' ih =>
    by_cases ha : a = sep
    · simp only [List.cons_append, splitChar, if_pos ha, List.append_eq, ih,
        List.cons_append]
    · obtain ⟨p, ps, hps⟩ := List.exists_cons_of_ne_nil (splitChar_ne_nil sep x')
      simp only [List.cons_append, splitChar, if_neg ha, List.append_eq, ih, hps,
        List.cons_append]

theorem splitChar_pieces {sep : Char} {l : List Char} :
    ∀ p ∈ splitChar sep l, sep ∉ p := by
  induction l with
  | nil =>
    intro p hp
    simp only [splitChar, List.mem_singleton] at hp
    simp [hp]
  | cons c rest ih =>
    intro p hp
    simp only [splitChar] at hp
    by_cases hc : c = sep
    · rw [if_pos hc] at hp
      rcases List.mem_cons.mp hp with h1 | h1
      · simp [h1]
      · exact ih p h1
    · rw [if_neg hc] at hp
      obtain ⟨q, qs, hqs⟩ := List.exists_cons_of_ne_nil (splitChar_ne_nil sep rest)
      rw [hqs] at hp
      rcases List.mem_cons.mp hp with h1 | h1
      · subst h1
        intro hm
        rcases List.mem_cons.mp hm with he | he
        · exact hc he.symm
        · exact ih q (hqs ▸ List.mem_cons_self q qs) he
      · exact ih p (hqs ▸ List.mem_cons_of_mem q h1)

theorem getD_append_plus {α : Type} (q r : List α) (n : Nat) (d : α) :
    (q ++ r).getD (q.length + n) d = r.getD n d := by
  induction q with
  | nil => simp
  | cons a q' ih => simpa [Nat.succ_add] using ih

theorem getLastD_append_cons {α : Type} (q : List α) (x : α) (r : List α) (d : α) :
    (q ++ x :: r).getLastD d = (x :: r).getLastD d := by
  induction q generalizing d with
  | nil => rfl
  | cons a q' ih =>
    rw [List.cons_append, List.getLastD_cons, ih a, List.getLastD_cons,
      List.getLastD_cons]

theorem getD_mem {α : Type} {l : List α} {n : Nat} (d : α) (h : n < l.length) :
    l.getD n d ∈ l := by
  induction l generalizing n with
  | nil => simp at h
  | cons a l' ih =>
    cases n with
    | zero => simp [List.getD]
    | succ m =>
      have hm : m < l'.length := Nat.lt_of_succ_lt_succ h
      exact List.mem_cons_of_mem a (ih hm)

theorem getLastD_mem {α : Type} {l : List α} (d : α) (h : l ≠ []) :
    l.getLastD d ∈ l := by
  induction l generalizing d with
  | nil => exact absurd rfl h
  | cons a l' ih =>
    cases l' with
    | nil => simp [List.getLastD]
    | cons b t =>
      rw [List.getLastD_cons]
      exact List.mem_cons_of_mem a (ih a (by simp))

theorem format_time_split (s : List Char) (q : List (List Char)) (a b c : List Char)
    (hs : splitChar ':' s = q ++ [a, b, c]) :
    format_time s = a ++ ':' :: b ++ ':' :: c := by
  have hlen : (splitChar ':' s).length = q.length + 3 := by simp [hs]
  have h1 : 1 < (splitChar ':' s).length := by omega
  have h2 : 2 < (splitChar ':' s).length := by omega
  have hm2 : (splitChar ':' s).length - 2 = q.length + 1 := by omega
  have hm3 : (splitChar ':' s).length - 3 = q.length + 0 := by omega
  have hss : (splitChar ':' s).getLastD [] = c := by
    rw [hs, getLastD_append_cons, List.getLastD_cons, List.getLastD_cons,
      List.getLastD_cons]
    rfl
  have hmm : (splitChar ':' s).getD ((splitChar ':' s).length - 2) [] = b := by
    rw [hm2]
    rw [hs, getD_append_plus]
    rfl
  have hhh : (splitChar ':' s).getD ((splitChar ':' s).length - 3) [] = a := by
    rw [hm3]
    rw [hs, getD_append_plus]
    rfl
  simp only [format_time, if_pos h1, if_pos h2, hss, hmm, hhh]

theorem format_time_one {a : List Char} (ha : ':' ∉ a) :
    format_time a = cs "00:00:" ++ a := by
  simp only [format_time, splitChar_no_sep ha]
  norm_num [List.getLastD, List.getD]
  rfl

theorem format_time_two {a b : List Char} (ha : ':' ∉ a) (hb : ':' ∉ b) :
    format_time (a ++ ':' :: b) = cs "00:" ++ a ++ ':' :: b := by
  have hs : splitChar ':' (a ++ ':' :: b) = [a, b] := by
    rw [splitChar_append, splitChar_no_sep ha, splitChar_no_sep hb]
    rfl
  simp only [format_time, hs]
  norm_num [List.getLastD, List.getD]
  rfl

theorem format_time_three {a b c : List Char} (ha : ':' ∉ a) (hb : ':' ∉ b)
    (hc : ':' ∉ c) :
    format_time (a ++ ':' :: b ++ ':' :: c) = a ++ ':' :: b ++ ':' :: c := by
  have hs : splitChar ':' (a ++ ':' :: b ++ ':' :: c) = [] ++ [a, b, c] := by
    rw [splitChar_append, splitChar_append, splitChar_no_sep ha,
      splitChar_no_sep hb, splitChar_no_sep hc]
    rfl
  exact format_time_split _ [] a b c hs

theorem format_time_extra {pre a b c : List Char} (ha : ':' ∉ a) (hb : ':' ∉ b)
    (hc : ':' ∉ c) :
    format_time (pre ++ ':' :: (a ++ ':' :: b ++ ':' :: c)) = a ++ ':' :: b ++ ':' :: c := by
  have hs : splitChar ':' (pre ++ ':' :: (a ++ ':' :: b ++ ':' :: c)) =
      splitChar ':' pre ++ [a, b, c] := by
    rw [splitChar_append, splitChar_append, splitChar_append, splitChar_no_sep ha,
      splitChar_no_sep hb, splitChar_no_sep hc]
    rfl
  exact format_time_split _ (splitChar ':' pre) a b c hs

/-- Claim C1, counterexample: `format_time` does not zero-pad its fields.
Parsing `"5"` renders `"00:00:5"`, not the claimed `"00:00:05"`, and
`"1:2:3"` renders unchanged as `"1:2:3"`, not `"01:02:03"`. -/
theorem format_time_no_padding_counterexample :
    format_time (cs "5") = cs "00:00:5" ∧ format_time (cs "5") ≠ cs "00:00:05" ∧
    format_time (cs "1:2:3") = cs "1:2:3" ∧ format_time (cs "1:2:3") ≠ cs "01:02:03" :=
  ⟨rfl, by decide, rfl, by decide⟩

/-- Claim C1, amended: rendering joins the (defaulted) groups verbatim with
`:` separators and performs no re-padding, so `parse("5")` renders
`"00:00:5"`, `parse("1:2:3")` renders `"1:2:3"`, and an already two-digit
(or arbitrary colon-free) triple renders unchanged. -/
theorem format_time_renders_groups_verbatim :
    format_time (cs "5") = cs "00:00:5" ∧ format_time (cs "1:2:3") = cs "1:2:3" ∧
    ∀ h m s : List Char, ':' ∉ h → ':' ∉ m → ':' ∉ s →
      format_time (h ++ ':' :: m ++ ':' :: s) = h ++ ':' :: m ++ ':' :: s :=
  ⟨rfl, rfl, fun _ _ _ hh hm hs => format_time_three hh hm hs⟩

/-- Witness for the amended C1 at the concrete padded input `"10:20:30"`. -/
theorem format_time_renders_groups_verbatim_witness :
    format_time (cs "10:20:30") = cs "10:20:30" :=
  format_time_renders_groups_verbatim.2.2 (cs "10") (cs "20") (cs "30")
    (by decide) (by decide) (by decide)

/-- Claim C3, counterexample: the spec-side `TimeCode.parse` (modelled from
§4.1) rejects `"1:2:3:4"` (more than 3 groups) and `"a:b"` (non-numeric),
but the code's `format_time` fails on neither: it returns `"2:3:4"` and
`"00:a:b"` respectively. -/
theorem format_time_never_fails_counterexample :
    TimeCode.parse (cs "1:2:3:4") = .error .MalformedTimecode ∧
    format_time (cs "1:2:3:4") = cs "2:3:4" ∧
    TimeCode.parse (cs "a:b") = .error .MalformedTimecode ∧
    format_time (cs "a:b") = cs "00:a:b" :=
  ⟨rfl, rfl, rfl, rfl⟩

/-- Claim C3, amended: `format_time` never fails; on every input it returns
a string of exactly three colon-separated fields (extra groups are silently
truncated to the last three and no numeric validation is performed). -/
theorem format_time_always_three_fields (s : List Char) :
    (format_time s).count ':' = 2 := by
  have hpieces := @splitChar_pieces ':' s
  have hne : splitChar ':' s ≠ [] := splitChar_ne_nil ':' s
  have hss : ':' ∉ (splitChar ':' s).getLastD [] := hpieces _ (getLastD_mem [] hne)
  have hmm : ':' ∉ (if 1 < (splitChar ':' s).length then
      (splitChar ':' s).getD ((splitChar ':' s).length - 2) [] else cs "00") := by
    split
    · next h => exact hpieces _ (getD_mem [] (by omega))
    · decide
  have hhh : ':' ∉ (if 2 < (splitChar ':' s).length then
      (splitChar ':' s).getD ((splitChar ':' s).length - 3) [] else cs "00") := by
    split
    · next h => exact hpieces _ (getD_mem [] (by omega))
    · decide
  simp only [format_time]
  rw [List.count_append, List.count_cons_self, List.count_append,
    List.count_cons_self, List.count_eq_zero.mpr hss, List.count_eq_zero.mpr hmm,
    List.count_eq_zero.mpr hhh]

/-- Claim C8: missing higher-order fields default to `"00"` by position from
the right — one group is seconds, two are minutes:seconds, three are
hours:minutes:seconds (each group taken verbatim). -/
theorem format_time_defaults_from_right :
    (∀ a : List Char, ':' ∉ a → format_time a = cs "00:00:" ++ a) ∧
    (∀ a b : List Char, ':' ∉ a → ':' ∉ b →
      format_time (a ++ ':' :: b) = cs "00:" ++ a ++ ':' :: b) ∧
    (∀ a b c : List Char, ':' ∉ a → ':' ∉ b → ':' ∉ c →
      format_time (a ++ ':' :: b ++ ':' :: c) = a ++ ':' :: b ++ ':' :: c) :=
  ⟨fun _ ha => format_time_one ha,
   fun _ _ ha hb => format_time_two ha hb,
   fun _ _ _ ha hb hc => format_time_three ha hb hc⟩

/-- Witness for C8 on the three concrete shapes `"7"`, `"4:5"`, `"6:7:8"`. -/
theorem format_time_defaults_from_right_witness :
    format_time (cs "7") = cs "00:00:7" ∧ format_time (cs "4:5") = cs "00:4:5" ∧
    format_time (cs "6:7:8") = cs "6:7:8" :=
  ⟨format_time_defaults_from_right.1 (cs "7") (by decide),
   format_time_defaults_from_right.2.1 (cs "4") (cs "5") (by decide) (by decide),
   format_time_defaults_from_right.2.2 (cs "6") (cs "7") (cs "8")
     (by decide) (by decide) (by decide)⟩

/-- Claim C9: `format_time` is total — it returns normally on every string,
including the empty string; with more than three colon groups only the last
three are used (any extra leading groups `pre` are discarded) and each used
group is passed through verbatim with no numeric validation. -/
theorem format_time_total_last_three :
    format_time [] = cs "00:00:" ∧
    ∀ pre a b c : List Char, ':' ∉ a → ':' ∉ b → ':' ∉ c →
      format_time (pre ++ ':' :: (a ++ ':' :: b ++ ':' :: c)) =
        a ++ ':' :: b ++ ':' :: c :=
  ⟨rfl, fun _ _ _ _ ha hb hc => format_time_extra ha hb hc⟩

/-- Witness for C9: a four-group, partly non-numeric input is processed
normally and truncated to its last three groups. -/
theorem format_time_total_last_three_witness :
    format_time (cs "9:x!:2:3") = cs "x!:2:3" :=
  format_time_total_last_three.2 (cs "9") (cs "x!") (cs "2") (cs "3")
    (by decide) (by decide) (by decide)

/-- Claim C4: on the single caption-pass line
`<span begin="00:01:02.500" end="00:01:05.250" podcasts:unit="sentence">Hello world</span>`
subtitle rendering yields exactly the block `1`, the timestamp line with a
comma before the milliseconds and ` --> ` as range separator, the text, and
a trailing blank line. -/
theorem render_subtitles_example_block :
    render_subtitles
      [cs "<span begin=\"00:01:02.500\" end=\"00:01:05.250\" podcasts:unit=\"sentence\">Hello world</span>"] =
      .ok (cs "1\n00:01:02,500 --> 00:01:05,250\nHello world\n\n") := rfl

/-- Claim C10: a caption-pass line that matches the sentence-cue pattern but
whose sentence text contains `||` makes the five-field unpacking fail (the
substitute-then-split yields six fields), so the loop errors instead of
producing a caption. -/
theorem caption_line_double_bar_error :
    (matchSentence
      (cs "<span begin=\"0.000\" end=\"1.000\" podcasts:unit=\"sentence\">a||b</span>")).isSome = true ∧
    3 < (cs "<span begin=\"0.000\" end=\"1.000\" podcasts:unit=\"sentence\">a||b</span>").length ∧
    splitBars (sub_sentence
      (cs "<span begin=\"0.000\" end=\"1.000\" podcasts:unit=\"sentence\">a||b</span>")) =
      [cs "0", cs "000", cs "1", cs "000", cs "a", cs "b"] ∧
    lineStep
      (cs "<span begin=\"0.000\" end=\"1.000\" podcasts:unit=\"sentence\">a||b</span>") =
      .err := by
  refine ⟨rfl, by decide, rfl, rfl⟩

/-- Claim C7: the caption normalization does not drop interior empty or
whitespace-only lines.  Both "delete empty line" substitutions
(`re.sub(r'^$', ...)` line 149 and `re.sub(r'^\s*$', ...)` line 158) lack
`re.MULTILINE`, so their anchors only bind at the string boundaries; on the
document `<p>a</p>\n\n<p>b</p>` the pass emits the line list
`["a", "", "b"]`, keeping the empty middle line, contradicting the claim
(and the code's own comments). -/
theorem caption_normalize_keeps_blank_line :
    caption_lines (cs "<p>a</p>\n\n<p>b</p>") = [cs "a", [], cs "b"] ∧
    [] ∈ caption_lines (cs "<p>a</p>\n\n<p>b</p>") := by
  refine ⟨rfl, by decide⟩

/-! ### Lemmas about the subtitle loop -/

theorem subst_id_of_hasM_false (m : List Char → Option (List (List Char) × List Char))
    (r : List (List Char) → List Char) :
    ∀ l, hasM m l = false → subst m r l = l := by
  intro l
  induction l with
  | nil => intro _; rfl
  | cons c ls ih =>
    intro h
    simp only [hasM, Bool.or_eq_false_iff] at h
    obtain ⟨h1, h2⟩ := h
    have hm : m (c :: ls) = none := by
      cases hv : m (c :: ls) with
      | none => rfl
      | some v => rw [hv] at h1; simp at h1
    show substM m r (ls.length + 1) (c :: ls) = c :: ls
    simp only [substM, hm]
    exact congrArg (c :: ·) (ih h2)

theorem unpack5_err : ∀ xs : List (List Char), xs.length ≠ 5 → unpack5 xs = .err := by
  intro xs h
  rcases xs with _ | ⟨a, _ | ⟨b, _ | ⟨c, _ | ⟨d, _ | ⟨e, _ | ⟨f, t⟩⟩⟩⟩⟩⟩ <;>
    first
      | rfl
      | (exfalso; exact h rfl)

/-- Claim C2, counterexample: the line `a||b||c||d||e` is longer than 3
characters and does not match the sentence-cue pattern anywhere, so by the
claim it should abort extraction; instead the unchanged line happens to
split into exactly five `||`-fields and the loop fabricates a caption from
it. -/
theorem caption_line_policy_counterexample :
    3 < (cs "a||b||c||d||e").length ∧
    hasM matchSentence (cs "a||b||c||d||e") = false ∧
    lineStep (cs "a||b||c||d||e") =
      .cap (cs "a") (cs "b") (cs "c") (cs "d") (cs "e") :=
  ⟨by decide, by decide, rfl⟩

/-- Claim C2, amended: the short-line filter uses the raw (untrimmed) line
length — a line of length at most 3 is silently skipped, producing neither
a caption nor an error — and a line of length at least 4 that does not
match the sentence-cue pattern aborts extraction unless the unchanged line
happens to split on `||` into exactly five fields (in which case a bogus
caption is produced instead). -/
theorem caption_line_policy_amended (line : List Char) :
    (line.length ≤ 3 → lineStep line = .skip) ∧
    (3 < line.length → hasM matchSentence line = false →
      (splitBars line).length ≠ 5 → lineStep line = .err) := by
  constructor
  · intro h
    simp [lineStep, Nat.not_lt.mpr h]
  · intro h3 hm h5
    have hs : sub_sentence line = line := subst_id_of_hasM_false _ _ line hm
    simp only [lineStep, if_pos h3, hs]
    exact unpack5_err _ h5

/-- Witness for the amended C2: `"ab"` is skipped, `"abcd"` errors. -/
theorem caption_line_policy_amended_witness :
    lineStep (cs "ab") = .skip ∧ lineStep (cs "abcd") = .err :=
  ⟨(caption_line_policy_amended (cs "ab")).1 (by decide),
   (caption_line_policy_amended (cs "abcd")).2 (by decide) (by decide) (by decide)⟩

theorem suffix_app {α : Type} (a : List α) {b c : List α} (h : b <:+ c) :
    b <:+ a ++ c :=
  h.trans (List.suffix_append a c)

theorem srtBlock_ends (i : Nat) (b bms e ems s : List Char) :
    cs "\n\n" <:+ srtBlock i b bms e ems s := by
  unfold srtBlock
  exact List.suffix_append _ _

theorem srtBlock_ne_nil (i : Nat) (b bms e ems s : List Char) :
    srtBlock i b bms e ems s ≠ [] := by
  intro h
  have hsuf := srtBlock_ends i b bms e ems s
  rw [h] at hsuf
  exact absurd (List.suffix_nil.mp hsuf) (by decide)

theorem renderFrom_ends :
    ∀ (i : Nat) (bs : List (List Char × List Char × List Char × List Char × List Char)),
    bs ≠ [] → cs "\n\n" <:+ renderFrom i bs := by
  intro i bs
  induction bs generalizing i with
  | nil => intro h; exact absurd rfl h
  | cons x rest ih =>
    intro _
    obtain ⟨b, bms, e, ems, s⟩ := x
    cases rest with
    | nil =>
      show cs "\n\n" <:+ srtBlock i b bms e ems s ++ renderFrom (i + 1) []
      rw [show renderFrom (i + 1)
        ([] : List (List Char × List Char × List Char × List Char × List Char)) = []
        from rfl, List.append_nil]
      exact srtBlock_ends i b bms e ems s
    | cons y t =>
      exact suffix_app _ (ih (i + 1) (by simp))

theorem renderFrom_eq_nil :
    ∀ (i : Nat) (bs : List (List Char × List Char × List Char × List Char × List Char)),
    renderFrom i bs = [] → bs = [] := by
  intro i bs h
  cases bs with
  | nil => rfl
  | cons x rest =>
    obtain ⟨b, bms, e, ems, s⟩ := x
    exfalso
    simp only [renderFrom, List.append_eq_nil] at h
    exact srtBlock_ne_nil i b bms e ems s h.1

theorem srtLoopAux_ok : ∀ (lines : List (List Char)) (i : Nat) (acc out : List Char),
    srtLoopAux lines i acc = .ok out →
    ∃ bs, extractCaps lines = some bs ∧ out = acc ++ renderFrom i bs := by
  intro lines
  induction lines with
  | nil =>
    intro i acc out h
    simp only [srtLoopAux] at h
    injection h with h
    exact ⟨[], rfl, by simp [renderFrom, h]⟩
  | cons line rest ih =>
    intro i acc out h
    simp only [srtLoopAux] at h
    cases hstep : lineStep line with
    | skip =>
      rw [hstep] at h
      obtain ⟨bs, hbs, hout⟩ := ih i acc out h
      exact ⟨bs, by simp [extractCaps, hstep, hbs], hout⟩
    | cap b bms e ems s =>
      rw [hstep] at h
      obtain ⟨bs, hbs, hout⟩ := ih (i + 1) (acc ++ srtBlock i b bms e ems s) out h
      refine ⟨(b, bms, e, ems, s) :: bs, by simp [extractCaps, hstep, hbs], ?_⟩
      rw [hout, List.append_assoc]
      rfl
    | err =>
      rw [hstep] at h
      exact Except.noConfusion h

/-- Claim C5: whenever the subtitle loop succeeds, its output is exactly
the extracted captions rendered as blocks numbered consecutively from 1 (no
renumbering); the output is empty iff no caption matched, and a non-empty
output ends with a blank line (a `"\n\n"` suffix). -/
theorem render_subtitles_shape (lines : List (List Char)) (out : List Char)
    (h : render_subtitles lines = .ok out) :
    ∃ bs, extractCaps lines = some bs ∧ out = renderFrom 1 bs ∧
      (out = [] ↔ bs = []) ∧ (bs ≠ [] → cs "\n\n" <:+ out) := by
  obtain ⟨bs, hbs, hout⟩ := srtLoopAux_ok lines 1 [] out h
  rw [List.nil_append] at hout
  refine ⟨bs, hbs, hout, ⟨?_, ?_⟩, ?_⟩
  · intro he; exact renderFrom_eq_nil 1 bs (hout ▸ he)
  · intro he; rw [hout, he]; rfl
  · intro hne; rw [hout]; exact renderFrom_ends 1 bs hne

/-- Witness for C5 on a concrete one-line input. -/
theorem render_subtitles_shape_witness :
    ∃ bs, extractCaps
        [cs "<span begin=\"1.000\" end=\"2.000\" podcasts:unit=\"sentence\">Hi</span>"] =
        some bs ∧
      cs "1\n00:00:1,000 --> 00:00:2,000\nHi\n\n" = renderFrom 1 bs ∧
      (cs "1\n00:00:1,000 --> 00:00:2,000\nHi\n\n" = [] ↔ bs = []) ∧
      (bs ≠ [] → cs "\n\n" <:+ cs "1\n00:00:1,000 --> 00:00:2,000\nHi\n\n") :=
  render_subtitles_shape
    [cs "<span begin=\"1.000\" end=\"2.000\" podcasts:unit=\"sentence\">Hi</span>"]
    (cs "1\n00:00:1,000 --> 00:00:2,000\nHi\n\n") rfl

/-! ### Lemmas about the tag-removal substitution -/

theorem dropLit_append : ∀ (p l r : List Char), dropLit p l = some r → l = p ++ r := by
  intro p
  induction p with
  | nil =>
    intro l r h
    simp only [dropLit] at h
    injection h with h
  | cons a ps ih =>
    intro l r h
    cases l with
    | nil => simp [dropLit] at h
    | cons c lt =>
      simp only [dropLit] at h
      by_cases hac : a = c
      · rw [if_pos hac] at h
        rw [List.cons_append, ← ih lt r h, hac]
      · rw [if_neg hac] at h
        exact absurd h (by simp)

theorem tryRepPos_suffix (next : List Char → Option (List (List Char) × List Char))
    (hnext : ∀ l caps rest, next l = some (caps, rest) → rest <:+ l) :
    ∀ (k : Nat) (l : List Char) caps rest,
      tryRepPos next l k = some (caps, rest) → rest <:+ l := by
  intro k
  induction k with
  | zero => intro l caps rest h; simp [tryRepPos] at h
  | succ n ih =>
    intro l caps rest h
    cases hv : next (l.drop (n + 1)) with
    | some pr =>
      obtain ⟨caps', rest'⟩ := pr
      have he : tryRepPos next l (n + 1) = some (caps', rest') := by
        simp only [tryRepPos, hv]
      rw [he] at h
      injection h with h
      injection h with ha hb
      subst ha
      subst hb
      exact (hnext _ _ _ hv).trans (List.drop_suffix _ _)
    | none =>
      have he : tryRepPos next l (n + 1) = tryRepPos next l n := by
        simp only [tryRepPos, hv]
      rw [he] at h
      exact ih l caps rest h

theorem tagB_suffix : ∀ (l : List Char) caps rest,
    tagB l = some (caps, rest) → rest <:+ l := by
  intro l caps rest h
  simp only [tagB, Option.map_eq_some'] at h
  obtain ⟨r, hr, he⟩ := h
  injection he with h1 h2
  subst h2
  rw [dropLit_append _ _ _ hr]
  exact List.suffix_append _ _

theorem tagC_suffix : ∀ (l : List Char) caps rest,
    tagC l = some (caps, rest) → rest <:+ l :=
  fun l caps rest h => tryRepPos_suffix tagB tagB_suffix _ l caps rest h

theorem matchTag_suffix : ∀ (l : List Char) caps rest,
    matchTag l = some (caps, rest) → rest <:+ l := by
  intro l caps rest h
  simp only [matchTag, Option.bind_eq_some] at h
  obtain ⟨r, hr, hc⟩ := h
  rw [dropLit_append _ _ _ hr]
  exact suffix_app _ (tagC_suffix r caps rest hc)

theorem matchTag_consumes : ∀ (l : List Char) caps rest,
    matchTag l = some (caps, rest) → rest.length < l.length := by
  intro l caps rest h
  simp only [matchTag, Option.bind_eq_some] at h
  obtain ⟨r, hr, hc⟩ := h
  have hl := dropLit_append _ _ _ hr
  have hle := (tagC_suffix r caps rest hc).length_le
  rw [hl, List.length_append]
  have h1 : (cs "<").length = 1 := rfl
  omega

theorem substM_fuel (m : List Char → Option (List (List Char) × List Char))
    (r : List (List Char) → List Char)
    (hm : ∀ l caps rest, m l = some (caps, rest) → rest.length < l.length) :
    ∀ (f1 f2 : Nat) (l : List Char), l.length ≤ f1 → l.length ≤ f2 →
      substM m r f1 l = substM m r f2 l := by
  intro f1
  induction f1 with
  | zero =>
    intro f2 l h1 _
    have hl : l = [] := List.length_eq_zero.mp (Nat.le_zero.mp h1)
    subst hl
    cases f2 <;> rfl
  | succ n ih =>
    intro f2 l h1 h2
    cases l with
    | nil => cases f2 <;> rfl
    | cons c ls =>
      cases f2 with
      | zero => simp at h2
      | succ n2 =>
        cases hv : m (c :: ls) with
        | some pr =>
          obtain ⟨caps, rest⟩ := pr
          have e1 : substM m r (n + 1) (c :: ls) = r caps ++ substM m r n rest := by
            simp only [substM, hv]
          have e2 : substM m r (n2 + 1) (c :: ls) = r caps ++ substM m r n2 rest := by
            simp only [substM, hv]
          rw [e1, e2]
          have hlt := hm _ _ _ hv
          simp only [List.length_cons] at h1 h2 hlt
          rw [ih n2 rest (by omega) (by omega)]
        | none =>
          have e1 : substM m r (n + 1) (c :: ls) = c :: substM m r n ls := by
            simp only [substM, hv]
          have e2 : substM m r (n2 + 1) (c :: ls) = c :: substM m r n2 ls := by
            simp only [substM, hv]
          rw [e1, e2]
          simp only [List.length_cons] at h1 h2
          rw [ih n2 ls (by omega) (by omega)]

theorem subst_cons_match (m : List Char → Option (List (List Char) × List Char))
    (r : List (List Char) → List Char)
    (hm : ∀ l caps rest, m l = some (caps, rest) → rest.length < l.length)
    {c : Char} {l : List Char} {caps : List (List Char)} {rest : List Char}
    (h : m (c :: l) = some (caps, rest)) :
    subst m r (c :: l) = r caps ++ subst m r rest := by
  show substM m r (l.length + 1) (c :: l) = _
  simp only [substM, h]
  congr 1
  have hlt := hm _ _ _ h
  simp only [List.length_cons] at hlt
  exact substM_fuel m r hm l.length rest.length rest (by omega) le_rfl

theorem subst_cons_nomatch (m : List Char → Option (List (List Char) × List Char))
    (r : List (List Char) → List Char) {c : Char} {l : List Char}
    (h : m (c :: l) = none) :
    subst m r (c :: l) = c :: subst m r l := by
  show substM m r (l.length + 1) (c :: l) = _
  simp only [substM, h]
  rfl

theorem subst_sublist (m : List Char → Option (List (List Char) × List Char))
    (hm : ∀ l caps rest, m l = some (caps, rest) → rest.length < l.length)
    (hs : ∀ l caps rest, m l = some (caps, rest) → rest <:+ l) :
    ∀ l : List Char, List.Sublist (subst m (fun _ => []) l) l := by
  have key : ∀ (n : Nat) (l : List Char), l.length ≤ n →
      List.Sublist (subst m (fun _ => []) l) l := by
    intro n
    induction n with
    | zero =>
      intro l h
      have hl : l = [] := List.length_eq_zero.mp (Nat.le_zero.mp h)
      subst hl
      exact List.Sublist.refl []
    | succ n ih =>
      intro l h
      cases l with
      | nil => exact List.Sublist.refl []
      | cons c ls =>
        cases hv : m (c :: ls) with
        | some pr =>
          obtain ⟨caps, rest⟩ := pr
          rw [subst_cons_match m _ hm hv, List.nil_append]
          have hlt := hm _ _ _ hv
          simp only [List.length_cons] at h hlt
          exact (ih rest (by omega)).trans ((hs _ _ _ hv).sublist)
        | none =>
          rw [subst_cons_nomatch m _ hv]
          simp only [List.length_cons] at h
          exact List.Sublist.cons₂ c (ih ls (by omega))
  exact fun l => key l.length l le_rfl

theorem tryRepPos_none (next : List Char → Option (List (List Char) × List Char))
    (l : List Char) :
    ∀ k : Nat, (∀ j, 0 < j → j ≤ k → next (l.drop j) = none) →
      tryRepPos next l k = none := by
  intro k
  induction k with
  | zero => intro _; rfl
  | succ n ih =>
    intro h
    simp only [tryRepPos, h (n + 1) (Nat.succ_pos n) le_rfl]
    exact ih fun j hj hjn => h j hj (Nat.le_succ_of_le hjn)

theorem tagB_none {l : List Char} (h : ∀ xs, l ≠ '>' :: xs) : tagB l = none := by
  cases l with
  | nil => rfl
  | cons x xs =>
    have hx : x ≠ '>' := fun he => h xs (by rw [he])
    show ((if '>' = x then dropLit [] xs else none).map
      fun r => (([] : List (List Char)), r)) = none
    rw [if_neg fun he => hx he.symm]
    rfl

theorem tagC_none_of_no_gt {l : List Char} (h : '>' ∉ l) : tagC l = none := by
  show tryRepPos tagB l (l.takeWhile (· ≠ '>')).length = none
  apply tryRepPos_none
  intro j hj _
  apply tagB_none
  intro xs hxs
  apply h
  have hm : '>' ∈ l.drop j := by rw [hxs]; exact List.mem_cons_self _ _
  exact List.drop_subset j l hm

theorem matchTag_cons_lt_eq (x : List Char) : matchTag ('<' :: x) = tagC x := by
  show (dropLit (cs "<") ('<' :: x)).bind tagC = tagC x
  have hd : dropLit (cs "<") ('<' :: x) = some x := by
    show (if '<' = '<' then dropLit [] x else none) = some x
    rw [if_pos rfl]
    rfl
  rw [hd]
  rfl

theorem matchTag_cons_ne {c : Char} (hc : c ≠ '<') (x : List Char) :
    matchTag (c :: x) = none := by
  show (dropLit (cs "<") (c :: x)).bind tagC = none
  have hd : dropLit (cs "<") (c :: x) = none := by
    show (if '<' = c then dropLit [] x else none) = none
    rw [if_neg fun he => hc he.symm]
  rw [hd]
  rfl

theorem tagC_cons_gt (xs : List Char) : tagC ('>' :: xs) = none := rfl

theorem dropWhile_head_not {p : Char → Bool} :
    ∀ (l : List Char) {x : Char} {xs : List Char},
      l.dropWhile p = x :: xs → p x = false := by
  intro l
  induction l with
  | nil => intro x xs h; simp [List.dropWhile] at h
  | cons a t ih =>
    intro x xs h
    by_cases hp : p a = true
    · rw [List.dropWhile_cons_of_pos hp] at h
      exact ih h
    · rw [List.dropWhile_cons_of_neg hp] at h
      injection h with h1 _
      cases hpa : p x
      · rfl
      · rw [← h1] at hpa; exact absurd hpa hp

theorem matchTag_lt_some {l : List Char} (h2 : ∀ l', l ≠ '>' :: l') (h3 : '>' ∈ l) :
    ∃ d', tagC l = some ([], d') := by
  have htd : l.takeWhile (· ≠ '>') ++ l.dropWhile (· ≠ '>') = l :=
    List.takeWhile_append_dropWhile _ _
  have hdne : l.dropWhile (· ≠ '>') ≠ [] := by
    intro hdn
    rw [hdn, List.append_nil] at htd
    have hmem := h3
    rw [← htd] at hmem
    have := List.mem_takeWhile_imp hmem
    simp at this
  obtain ⟨x, d', hxd⟩ := List.exists_cons_of_ne_nil hdne
  have hx : x = '>' := by
    have := dropWhile_head_not l hxd
    simpa using this
  subst hx
  have htne : l.takeWhile (· ≠ '>') ≠ [] := by
    intro htn
    rw [htn, List.nil_append] at htd
    exact h2 d' (by rw [← htd, hxd])
  have hdrop : l.drop (l.takeWhile (· ≠ '>')).length = '>' :: d' := by
    have hdl := List.drop_left (l.takeWhile (· ≠ '>')) (l.dropWhile (· ≠ '>'))
    rw [htd] at hdl
    rw [hdl, hxd]
  obtain ⟨k, hk⟩ : ∃ k, (l.takeWhile (· ≠ '>')).length = k + 1 := by
    have := List.length_pos.mpr htne
    exact ⟨(l.takeWhile (· ≠ '>')).length - 1, by omega⟩
  refine ⟨d', ?_⟩
  show tryRepPos tagB l (l.takeWhile (· ≠ '>')).length = some ([], d')
  rw [hk]
  simp only [tryRepPos]
  rw [← hk, hdrop]
  rfl

theorem matchTag_cons_lt_none {l : List Char} (h : matchTag ('<' :: l) = none) :
    l = [] ∨ (∃ l', l = '>' :: l') ∨ '>' ∉ l := by
  by_contra hc
  push_neg at hc
  obtain ⟨_, h2, h3⟩ := hc
  obtain ⟨d', hd⟩ := matchTag_lt_some h2 h3
  rw [matchTag_cons_lt_eq, hd] at h
  exact Option.noConfusion h

theorem noTag_subst : ∀ (n : Nat) (l : List Char), l.length ≤ n →
    hasM matchTag (subst matchTag (fun _ => []) l) = false := by
  intro n
  induction n with
  | zero =>
    intro l h
    have hl : l = [] := List.length_eq_zero.mp (Nat.le_zero.mp h)
    subst hl
    rfl
  | succ n ih =>
    intro l h
    cases l with
    | nil => rfl
    | cons c ls =>
      simp only [List.length_cons] at h
      cases hv : matchTag (c :: ls) with
      | some pr =>
        obtain ⟨caps, rest⟩ := pr
        rw [subst_cons_match matchTag _ matchTag_consumes hv]
        show hasM matchTag ([] ++ subst matchTag (fun _ => []) rest) = false
        rw [List.nil_append]
        have hlt := matchTag_consumes _ _ _ hv
        simp only [List.length_cons] at hlt
        exact ih rest (by omega)
      | none =>
        rw [subst_cons_nomatch matchTag _ hv]
        simp only [hasM]
        rw [ih ls (by omega), Bool.or_false]
        by_cases hc : c = '<'
        · subst hc
          rcases matchTag_cons_lt_none hv with h1 | ⟨l', h1⟩ | h1
          · subst h1
            rfl
          · subst h1
            have hm2 : matchTag ('>' :: l') = none := matchTag_cons_ne (by decide) l'
            rw [subst_cons_nomatch matchTag _ hm2]
            rw [matchTag_cons_lt_eq, tagC_cons_gt]
            rfl
          · have hsub := subst_sublist matchTag matchTag_consumes matchTag_suffix ls
            have hnog : '>' ∉ subst matchTag (fun _ => []) ls :=
              fun hmem => h1 (hsub.subset hmem)
            rw [matchTag_cons_lt_eq, tagC_none_of_no_gt hnog]
            rfl
        · rw [matchTag_cons_ne hc]
          rfl

/-- Claim C6, counterexample: a lone `<` (no matching `>`) survives the
text pass untouched, so the plain-text output can contain `<`. -/
theorem render_plain_text_angle_counterexample :
    render_plain_text (cs "<") = cs "<" ∧ '<' ∈ render_plain_text (cs "<") :=
  ⟨rfl, by decide⟩

/-- Claim C6, amended: for every input the plain-text output contains no
complete tag — the final catch-all pattern `<[^>]+>` matches nowhere in the
output (though unmatched lone `<` or `>` characters can survive). -/
theorem render_plain_text_no_complete_tag (doc : List Char) :
    hasM matchTag (render_plain_text doc) = false :=
  noTag_subst _ _ le_rfl
